import Mathlib

/-!
Verification development for the `gsrunner` service bootstrap helper
(`runner.go`).  The Go source is shallowly embedded: pure helpers become
Lean functions; the stateful `Run` pipeline becomes an explicit
trace-producing function over an environment describing the external
collaborators (command-line parsing, JSON config loader, logging sinks,
RPC registry).  Machine integers are modelled with `Nat`/`Int`,
truncating conversions with explicit `% 2 ^ w`.
-/

namespace GsRunner

/-! ## Character classes of `registryRegex`

The source pattern is
`^(?P<name>[A-Za-z0-9_](\.[A-Za-z0-9_])+)=(?P<id>[0-9]+)$`.
Go's `regexp` anchors `^`/`$` at the beginning/end of the whole text
(multi-line mode is off), so a match must span the entire input string,
including any trailing newline character the reader left in place. -/

/-- The character class `[A-Za-z0-9_]` of `registryRegex`. -/
def isWordChar (c : Char) : Bool :=
  ('A' ≤ c && c ≤ 'Z') || ('a' ≤ c && c ≤ 'z') || ('0' ≤ c && c ≤ '9') || c = '_'

/-- The character class `[0-9]` of `registryRegex`. -/
def isDigitChar (c : Char) : Bool :=
  '0' ≤ c && c ≤ '9'

/-- Matcher for `(\.[A-Za-z0-9_])*`: a sequence of dot/word-char pairs. -/
def matchDotPairs : List Char → Bool
  | [] => true
  | '.' :: c :: rest => isWordChar c && matchDotPairs rest
  | _ => false

/-- Matcher for the `name` group `[A-Za-z0-9_](\.[A-Za-z0-9_])+`:
one word character followed by at least one dot/word-char pair. -/
def matchNamePat : List Char → Bool
  | c :: '.' :: d :: rest => isWordChar c && isWordChar d && matchDotPairs rest
  | _ => false

/-- Split a string at its first `'='`, returning the parts before and
after it.  Neither character class of `registryRegex` admits `'='`, so a
regex match decomposes the line exactly at its unique `'='`. -/
def splitAtEq : List Char → Option (List Char × List Char)
  | [] => none
  | '=' :: rest => some ([], rest)
  | c :: rest =>
    match splitAtEq rest with
    | none => none
    | some (a, b) => some (c :: a, b)

/-- The last repetition of the group `(\.[A-Za-z0-9_])`, i.e. the final
two characters of a matched name (submatch index 2). -/
def lastTwo (l : List Char) : List Char :=
  l.drop (l.length - 2)

/-- The submatch array returned by `FindStringSubmatch`:
index 0 the full match, 1 the `name` group, 2 the last repetition of the
inner group, 3 the `id` group. -/
structure RegexTokens where
  m0 : List Char
  m1 : List Char
  m2 : List Char
  m3 : List Char
deriving DecidableEq

/-- `registryRegex.FindStringSubmatch` on one line.  Because the pattern
is anchored on both sides and neither class admits `'='`, the string
matches iff it splits at its first `'='` into a name matching the name
pattern and a non-empty run of decimal digits reaching the very end of
the string (a trailing `'\n'` therefore defeats the match). -/
def findStringSubmatch (s : List Char) : Option RegexTokens :=
  match splitAtEq s with
  | none => none
  | some (name, idPart) =>
    if matchNamePat name && !idPart.isEmpty && idPart.all isDigitChar then
      some ⟨s, name, lastTwo name, idPart⟩
    else none

/-! ## `strconv.ParseInt(s, 0, 32)`

Base 0: an optional sign, then a `0b`/`0o`/`0x` prefix selects the base
(a bare leading `0` selects octal, plain digits decimal); underscores
are accepted only between the prefix/digits and further digits; the
result must fit in a signed 32-bit integer, otherwise the call errors
(the caller in `loadRegistry` only distinguishes error from success). -/

/-- Go's `lower` on ASCII letters. -/
def lowerChar (c : Char) : Char :=
  if 'A' ≤ c && c ≤ 'Z' then Char.ofNat (c.toNat + 32) else c

/-- Value of a digit character, if valid for the given base. -/
def digitVal (base : Nat) (c : Char) : Option Nat :=
  let v : Nat :=
    if '0' ≤ c && c ≤ '9' then c.toNat - '0'.toNat
    else if 'a' ≤ c && c ≤ 'z' then c.toNat - 'a'.toNat + 10
    else if 'A' ≤ c && c ≤ 'Z' then c.toNat - 'A'.toNat + 10
    else 99
  if v < base then some v else none

/-- Strip an optional sign; returns (negative?, rest). -/
def stripSign : List Char → Bool × List Char
  | '+' :: rest => (false, rest)
  | '-' :: rest => (true, rest)
  | s => (false, s)

/-- Base-0 prefix handling of `ParseUint`: returns the base, the digit
part, and whether an underscore may immediately follow (it may after a
base prefix or after the consumed leading `0`). -/
def stripPrefix0 : List Char → Nat × List Char × Bool
  | '0' :: c :: rest =>
    if lowerChar c = 'b' && !rest.isEmpty then (2, rest, true)
    else if lowerChar c = 'o' && !rest.isEmpty then (8, rest, true)
    else if lowerChar c = 'x' && !rest.isEmpty then (16, rest, true)
    else (8, c :: rest, true)
  | ['0'] => (8, [], true)
  | s => (10, s, false)

/-- Accumulate digits left to right; an underscore must follow a digit
(or the base prefix) and be followed by a digit. -/
def goDigitsAux (base : Nat) : List Char → Nat → Bool → Option Nat
  | [], acc, lastDigit => if lastDigit then some acc else none
  | '_' :: rest, acc, lastDigit =>
    if lastDigit then goDigitsAux base rest acc false else none
  | c :: rest, acc, _ =>
    match digitVal base c with
    | some v => goDigitsAux base rest (acc * base + v) true
    | none => none

/-- `strconv.ParseUint(s, 0, _)` up to range checking (done by the
caller): base detection, digits, underscore placement. -/
def parseUintBase0 (s : List Char) : Option Nat :=
  match s with
  | [] => none
  | _ =>
    match stripPrefix0 s with
    | (base, digits, afterPrefix) => goDigitsAux base digits 0 afterPrefix

/-- `strconv.ParseInt(s, 0, 32)`: optional sign, unsigned body, signed
32-bit range check; `none` models a non-nil error. -/
def parseIntBase0Bits32 (s : List Char) : Option Int :=
  match s with
  | [] => none
  | _ =>
    match stripSign s with
    | (neg, rest) =>
      match parseUintBase0 rest with
      | none => none
      | some n =>
        if neg then
          if n ≤ 2 ^ 31 then some (-(n : Int)) else none
        else
          if n ≤ 2 ^ 31 - 1 then some (n : Int) else none

/-! ## Reading lines: `bufio.Reader.ReadString('\n')`

`ReadString` returns each chunk *including* its `'\n'` delimiter; at
end of input it returns the unterminated remainder together with
`io.EOF`, and `loadRegistry` breaks out of its loop on `io.EOF` before
looking at that remainder.  So only newline-terminated chunks are ever
processed. -/

/-- Newline-terminated chunks of the input, each including its final
`'\n'`; an unterminated trailing chunk is dropped (the `io.EOF` break). -/
def linesAux (acc : List Char) : List Char → List (List Char)
  | [] => []
  | c :: rest =>
    if c = '\n' then (acc ++ [c]) :: linesAux [] rest
    else linesAux (acc ++ [c]) rest

/-- All lines `loadRegistry`'s loop actually processes. -/
def terminatedLines (s : List Char) : List (List Char) :=
  linesAux [] s

/-! ## `loadRegistry` -/

/-- Which check a failing line tripped: `registryRegex` mismatch,
`strconv.ParseInt` failure, or the `val > math.MaxUint16` check. -/
inductive FailKind
  | invalidFormat
  | parseFailure
  | idOutOfRange
deriving DecidableEq

/-- Result of one load: either the mapping handed to
`gorpc.RegistryUpdate` in a single call, or the fatal error raised by
`gserrors.Panicf` carrying the source path and the line counter. -/
inductive LoadOutcome
  | published (items : List (List Char × Nat))
  | fatal (kind : FailKind) (path : String) (lineIdx : Nat)
deriving DecidableEq

/-- Go map assignment `items[k] = v` on an association list. -/
def mapUpdate : List (List Char × Nat) → List Char → Nat → List (List Char × Nat)
  | [], k, v => [(k, v)]
  | (k', v') :: rest, k, v =>
    if k' = k then (k, v) :: rest else (k', v') :: mapUpdate rest k v

/-- The body of `loadRegistry`'s loop over the terminated lines.  As in
the source: the regex must match, then `tokens[1]` (the *name* group) is
fed to `ParseInt`, the value is range-checked against `math.MaxUint16`,
and the entry is stored under `tokens[0]` (the *full match*) after a
truncating `uint16` conversion; the `lines` counter increments only
after a fully successful line. -/
def processLines (path : String) :
    List (List Char) → Nat → List (List Char × Nat) → LoadOutcome
  | [], _, items => .published items
  | line :: rest, n, items =>
    match findStringSubmatch line with
    | none => .fatal .invalidFormat path n
    | some tokens =>
      match parseIntBase0Bits32 tokens.m1 with
      | none => .fatal .parseFailure path n
      | some val =>
        if 65535 < val then .fatal .idOutOfRange path n
        else
          processLines path rest (n + 1)
            (mapUpdate items tokens.m0 ((val % 65536).toNat))

/-- `loadRegistry(file, path)` on the full input text. -/
def loadRegistry (input : List Char) (path : String) : LoadOutcome :=
  processLines path (terminatedLines input) 0 []

/-- A line passes all three checks of the loop body. -/
def lineOk (line : List Char) : Bool :=
  match findStringSubmatch line with
  | none => false
  | some tokens =>
    match parseIntBase0Bits32 tokens.m1 with
    | none => false
    | some val => decide (val ≤ 65535)

/-- Whether an outcome published a mapping. -/
def LoadOutcome.isPublished : LoadOutcome → Bool
  | .published _ => true
  | .fatal _ _ _ => false

/-! ## The registrar: `checkName` and flag declaration

`_Runner.fullname` is a Go map from short flag name to fully-qualified
name; we embed it as an association list with unique keys (`checkName`
rejects a duplicate key before inserting).  Every `FlagString`,
`FlagInt`, `FlagUint`, `FlagFloat32`, `FlagFloat64`, `Seconds` and
`Milliseconds` calls `checkName` first, and declarations happen while
the runner is being set up, before `Run` calls `flag.Parse`. -/

/-- Lookup `runner.fullname[name]`. -/
def lookupName (m : List (String × String)) (name : String) : Option String :=
  (m.find? (fun p => p.1 = name)).map (·.2)

/-- `checkName`: reject a duplicate short name (map-key test), then a
duplicate fully-qualified name (linear scan over the map's values), else
record the pair.  An `.error` models the `gserrors.Panicf` call, whose
message names the offending flag. -/
def checkName (m : List (String × String)) (name fn : String) :
    Except String (List (String × String)) :=
  if (lookupName m name).isSome then
    .error ("duplicate flag name :" ++ name)
  else if m.any (fun p => p.2 = fn) then
    .error ("duplicate flag fullname :" ++ fn)
  else
    .ok (m ++ [(name, fn)])

/-- Declare a sequence of flags, stopping at the first fatal error. -/
def declareAll (m : List (String × String)) :
    List (String × String) → Except String (List (String × String))
  | [] => .ok m
  | (n, f) :: rest =>
    match checkName m n f with
    | .error e => .error e
    | .ok m' => declareAll m' rest

/-- The five flags `New` declares on every runner. -/
def builtinFlags : List (String × String) :=
  [("log", "gsrunner.log"), ("level", "gsrunner.log.level"),
   ("pprof", "gsrunner.pprof"), ("config", "gsrunner.config"),
   ("registry", "gsrunner.registry")]

/-- The registrar invariant: no two declared options share a short name
and no two share a fully-qualified name. -/
def NamesInv (m : List (String × String)) : Prop :=
  (m.map Prod.fst).Nodup ∧ (m.map Prod.snd).Nodup

/-! ## The configuration store and `Run`

The external collaborators (`flag`, `gsconfig`, `gslogger`, `gorpc`,
the OS) are modelled through a `RunEnv`: the flag values `flag.Parse`
produced, the outcome of `gsconfig.LoadJSON`, whether `os.Open` on the
registry path succeeds and what the file holds, and whether the
caller-supplied entry point panics.  `Run` itself becomes a function
from the environment and the initial store to a trace of observable
events, the final store, and whether a fault escaped the call. -/

/-- Scan the reversed path for the extension: the characters up to and
including the first `'.'`, unless a path separator comes first. -/
def extTake : List Char → Option (List Char)
  | [] => none
  | c :: rest =>
    if c = '/' then none
    else if c = '.' then some [c]
    else
      match extTake rest with
      | none => none
      | some l => some (c :: l)

/-- `filepath.Ext`: the suffix of the path beginning at the final dot in
the final path element, or `""` when that element has no dot (`'/'` is
the path separator on this target). -/
def goExt (p : String) : String :=
  match extTake p.data.reverse with
  | none => ""
  | some l => String.mk l.reverse

/-- A value held by a flag / the configuration store.  `vFloat` carries
the raw 64-bit pattern: no floating-point arithmetic occurs in the
core's control flow, so the bits are only moved around. -/
inductive CVal
  | vStr (s : String)
  | vInt (i : Int)
  | vUint (u : Nat)
  | vFloat (bits : Nat)
deriving DecidableEq

/-- One declared flag together with its parsed command-line value
(the state after `flag.Parse` returns). -/
structure Decl where
  name : String
  fullname : String
  val : CVal
deriving DecidableEq

/-- The process-wide `gsconfig` store. -/
def Store : Type := String → Option CVal

/-- The empty store. -/
def emptyStore : Store := fun _ => none

/-- `gsconfig.Update(key, v)`. -/
def updateStore (st : Store) (key : String) (v : CVal) : Store :=
  fun k => if k = key then some v else st k

/-- `gsconfig.String(key, dflt)`: the stored string, else the default.
Modelled from the spec: `gsconfig` is an external collaborator; the
spec says resolved values are read back from the store by key. -/
def storeString (st : Store) (key dflt : String) : String :=
  match st key with
  | some (CVal.vStr s) => s
  | _ => dflt

/-- The merge loops of `Run`: for every declared flag, write its parsed
value into the store under `runner.fullname[k]`, overwriting whatever is
there.  The seven per-kind Go maps are flattened into one list; the
merged result at any single key does not depend on iteration order
because fully-qualified names are unique. -/
def mergeDecls (st : Store) : List Decl → Store
  | [] => st
  | d :: rest => mergeDecls (updateStore st d.fullname d.val) rest

/-- A fault raised by `gserrors.Panicf` (or by the entry point) inside
`Run`'s body, before the deferred handler sees it. -/
inductive PanicErr
  | configLoad (path : String)
  | registryOpen (path : String)
  | registryBad (kind : FailKind) (path : String) (lineIdx : Nat)
  | mainFault
deriving DecidableEq

/-- Observable events of one `Run` call, in program order. -/
inductive Event
  | logDbg (tag : String) (arg : String)
  | warnConfig (path : String)
  | jsonLoadAttempt (path : String)
  | jsonLoaded (path : String)
  | initLogSink (root : String)
  | setLogLevel (lvl : String)
  | logRegistryStart (path : String)
  | registryPublished (items : List (List Char × Nat))
  | logRegistrySuccess (path : String)
  | logStarted
  | mainInvoked
  | logCaught (e : PanicErr)
  | logStopped
  | joinLogs
deriving DecidableEq

/-- The collaborators and parsed inputs one `Run` call sees. -/
structure RunEnv where
  decls : List Decl
  jsonLoad : String → Store → Option Store
  registryOpens : Bool
  registryContent : List Char
  mainFaults : Bool

/-- `*runner.flagString["config"]`: the parsed value of the `config`
flag (`New` always declares it; an absent or non-string entry reads as
the empty default). -/
def configPathOf (env : RunEnv) : String :=
  match env.decls.find? (fun d => d.name = "config") with
  | some d =>
    match d.val with
    | CVal.vStr s => s
    | _ => ""
  | none => ""

/-- The config-file step of `Run`: nothing for an empty path; for a
`.json` extension run `gsconfig.LoadJSON` (fatal on failure); for any
other extension log a warning and skip. -/
def configStep (env : RunEnv) (cp : String) (st : Store) :
    List Event × Except PanicErr Store :=
  if cp = "" then ([], .ok st)
  else if goExt cp = ".json" then
    match env.jsonLoad cp st with
    | some st' => ([.jsonLoadAttempt cp, .jsonLoaded cp], .ok st')
    | none => ([.jsonLoadAttempt cp], .error (.configLoad cp))
  else ([.warnConfig cp], .ok st)

/-- The registry step of `Run`: log, open the file (fatal on failure),
run `loadRegistry`, publish on success. -/
def registryStep (env : RunEnv) (rf : String) : List Event × Option PanicErr :=
  if env.registryOpens then
    match loadRegistry env.registryContent rf with
    | .fatal k p i => ([.logRegistryStart rf], some (.registryBad k p i))
    | .published items =>
      ([.logRegistryStart rf, .registryPublished items, .logRegistrySuccess rf],
        none)
  else ([.logRegistryStart rf], some (.registryOpen rf))

/-- The registry step guarded by the `registryFile != ""` test. -/
def registryPart (env : RunEnv) (rf : String) : List Event × Option PanicErr :=
  if rf = "" then ([], none) else registryStep env rf

/-- `Run`'s body after the config step: merge flags over the store, read
back the log root, log level and registry path, set up logging, load the
registry, then start the entry point. -/
def afterConfig (env : RunEnv) (st : Store) :
    List Event × Store × Option PanicErr :=
  let st1 := mergeDecls st env.decls
  let logroot := storeString st1 "gsrunner.log" ""
  let loglevel := storeString st1 "gsrunner.log.level" ""
  let registryFile := storeString st1 "gsrunner.registry" ""
  let ev1 : List Event :=
    [.logDbg "log root path" logroot, .logDbg "log level" loglevel,
     .logDbg "registry file" registryFile]
  let ev2 : List Event := if logroot = "" then [] else [.initLogSink logroot]
  let ev3 : List Event := if loglevel = "" then [] else [.setLogLevel loglevel]
  match registryPart env registryFile with
  | (evs, some e) => (ev1 ++ ev2 ++ ev3 ++ evs, st1, some e)
  | (evs, none) =>
    (ev1 ++ ev2 ++ ev3 ++ evs ++ [.logStarted, .mainInvoked], st1,
      if env.mainFaults then some .mainFault else none)

/-- Everything `Run` does before its deferred handler fires: the events
emitted so far, the store as mutated so far, and the pending fault, if
one was raised. -/
def runBody (env : RunEnv) (st : Store) :
    List Event × Store × Option PanicErr :=
  let cp := configPathOf env
  let ev0 : List Event := [.logDbg "config file path" cp]
  match configStep env cp st with
  | (evs, .error e) => (ev0 ++ evs, st, some e)
  | (evs, .ok st1) =>
    match afterConfig env st1 with
    | (evs2, st2, p) => (ev0 ++ evs ++ evs2, st2, p)

/-- The observable result of one `Run` call. -/
structure RunResult where
  trace : List Event
  store : Store
  aborted : Bool

/-- `Run`: the body wrapped in the deferred handler, which recovers any
pending fault (logging it), logs the final stop message and joins the
log sinks; no fault ever escapes the call, so `aborted` is `false`. -/
def runModel (env : RunEnv) (st : Store) : RunResult :=
  match runBody env st with
  | (evs, st', p) =>
    let caught : List Event :=
      match p with
      | some e => [.logCaught e]
      | none => []
    ⟨evs ++ caught ++ [.logStopped, .joinLogs], st', false⟩

/-- A run whose `config` flag names a JSON file that fails to load. -/
def env4 : RunEnv :=
  { decls := [⟨"config", "gsrunner.config", CVal.vStr "app.json"⟩],
    jsonLoad := fun _ _ => none, registryOpens := true,
    registryContent := [], mainFaults := false }

/-- A run with no config and no registry whose entry point panics. -/
def env8 : RunEnv :=
  { decls := [], jsonLoad := fun _ s => some s, registryOpens := true,
    registryContent := [], mainFaults := true }

/-- A run whose `config` flag names a file with a `.yaml` extension. -/
def env9 : RunEnv :=
  { decls := [⟨"config", "gsrunner.config", CVal.vStr "conf.yaml"⟩],
    jsonLoad := fun _ s => some s, registryOpens := true,
    registryContent := [], mainFaults := false }

/-! ## Lemmas about the registry loader -/

theorem processLines_published_iff (path : String) (ls : List (List Char))
    (n : Nat) (items : List (List Char × Nat)) :
    (processLines path ls n items).isPublished = true ↔
      ∀ l ∈ ls, lineOk l = true := by
  induction ls generalizing n items with
  | nil => simp [processLines, LoadOutcome.isPublished]
  | cons l rest ih =>
    cases hf : findStringSubmatch l with
    | none =>
      simp [processLines, lineOk, hf, LoadOutcome.isPublished]
    | some tokens =>
      cases hp : parseIntBase0Bits32 tokens.m1 with
      | none =>
        simp [processLines, lineOk, hf, hp, LoadOutcome.isPublished]
      | some val =>
        by_cases hv : 65535 < val
        · have hv' : ¬ val ≤ 65535 := not_le.mpr hv
          simp [processLines, lineOk, hf, hp, hv, hv', LoadOutcome.isPublished]
        · have hv' : val ≤ 65535 := not_lt.mp hv
          simp [processLines, lineOk, hf, hp, hv, hv', ih]

theorem processLines_fatal_eq (path : String) (ls : List (List Char))
    (n : Nat) (items : List (List Char × Nat)) (k : FailKind) (p : String)
    (i : Nat) (h : processLines path ls n items = .fatal k p i) :
    p = path ∧ i = n + (ls.takeWhile lineOk).length := by
  induction ls generalizing n items with
  | nil => simp [processLines] at h
  | cons l rest ih =>
    cases hf : findStringSubmatch l with
    | none =>
      rw [processLines, hf] at h
      cases h
      simp [List.takeWhile, lineOk, hf]
    | some tokens =>
      cases hp : parseIntBase0Bits32 tokens.m1 with
      | none =>
        simp only [processLines, hf, hp] at h
        cases h
        simp [List.takeWhile, lineOk, hf, hp]
      | some val =>
        by_cases hv : 65535 < val
        · simp only [processLines, hf, hp, if_pos hv] at h
          cases h
          have hv' : ¬ val ≤ 65535 := not_le.mpr hv
          simp [List.takeWhile, lineOk, hf, hp, hv']
        · simp only [processLines, hf, hp, if_neg hv] at h
          have hok : lineOk l = true := by
            have hv' : val ≤ 65535 := not_lt.mp hv
            simp [lineOk, hf, hp, hv']
          obtain ⟨hpp, hii⟩ := ih _ _ h
          refine ⟨hpp, ?_⟩
          rw [List.takeWhile_cons, hok]
          simpa [Nat.add_assoc, Nat.add_comm 1] using hii

theorem linesAux_no_newline (t : List Char) (acc : List Char)
    (h : ∀ c ∈ t, c ≠ '\n') : linesAux acc t = [] := by
  induction t generalizing acc with
  | nil => rfl
  | cons c rest ih =>
    have hc : c ≠ '\n' := h c (List.mem_cons_self c rest)
    rw [linesAux, if_neg hc]
    exact ih _ fun d hd => h d (List.mem_cons_of_mem c hd)

theorem linesAux_append (s t acc : List Char) (h : ∀ c ∈ t, c ≠ '\n') :
    linesAux acc (s ++ t) = linesAux acc s := by
  induction s generalizing acc with
  | nil => simpa [linesAux] using linesAux_no_newline t acc h
  | cons c rest ih =>
    by_cases hc : c = '\n' <;> simp [linesAux, hc, ih]

/-! ## Lemmas about `checkName` and the merge step -/

theorem checkName_ok_iff (m : List (String × String)) (n f : String)
    (m' : List (String × String)) (h : checkName m n f = .ok m') :
    m' = m ++ [(n, f)] ∧ n ∉ m.map Prod.fst ∧ f ∉ m.map Prod.snd := by
  by_cases h1 : (lookupName m n).isSome
  · rw [checkName, if_pos h1] at h
    cases h
  · by_cases h2 : m.any (fun p => p.2 = f)
    · rw [checkName, if_neg h1, if_pos h2] at h
      cases h
    · rw [checkName, if_neg h1, if_neg h2] at h
      cases h
      refine ⟨rfl, ?_, ?_⟩
      · intro hn
        obtain ⟨p, hp, hpn⟩ := List.mem_map.mp hn
        have : m.find? (fun q => q.1 = n) = none := by
          cases hfind : m.find? (fun q => q.1 = n) with
          | none => rfl
          | some q => exact absurd (by simp [lookupName, hfind]) h1
        have := List.find?_eq_none.mp this p hp
        simp [hpn] at this
      · intro hf
        obtain ⟨p, hp, hpf⟩ := List.mem_map.mp hf
        exact h2 (List.any_eq_true.mpr ⟨p, hp, by simp [hpf]⟩)

theorem mem_ite_nil_singleton {α : Type} {c : Prop} [Decidable c] {x e : α}
    (h : x ∈ (if c then ([] : List α) else [e])) : x = e := by
  split at h
  · cases h
  · simpa using h

/-! ## Lemmas about the events of each `Run` step -/

theorem configStep_events (env : RunEnv) (cp : String) (st : Store) (x : Event)
    (hx : x ∈ (configStep env cp st).1) :
    (∃ p, x = .jsonLoadAttempt p) ∨ (∃ p, x = .jsonLoaded p) ∨
    (∃ p, x = .warnConfig p) := by
  by_cases h1 : cp = ""
  · simp [configStep, h1] at hx
  · by_cases h2 : goExt cp = ".json"
    · cases h3 : env.jsonLoad cp st with
      | some st1 =>
        simp [configStep, h1, h2, h3] at hx
        rcases hx with rfl | rfl
        · exact Or.inl ⟨cp, rfl⟩
        · exact Or.inr (Or.inl ⟨cp, rfl⟩)
      | none =>
        simp [configStep, h1, h2, h3] at hx
        exact Or.inl ⟨cp, hx⟩
    · simp [configStep, h1, h2] at hx
      exact Or.inr (Or.inr ⟨cp, hx⟩)

theorem registryPart_events (env : RunEnv) (rf : String) (x : Event)
    (hx : x ∈ (registryPart env rf).1) :
    (∃ p, x = .logRegistryStart p) ∨ (∃ l, x = .registryPublished l) ∨
    (∃ p, x = .logRegistrySuccess p) := by
  by_cases h1 : rf = ""
  · simp [registryPart, h1] at hx
  · cases h2 : env.registryOpens with
    | false =>
      simp [registryPart, registryStep, h1, h2] at hx
      exact Or.inl ⟨rf, hx⟩
    | true =>
      cases h3 : loadRegistry env.registryContent rf with
      | fatal k p i =>
        simp [registryPart, registryStep, h1, h2, h3] at hx
        exact Or.inl ⟨rf, hx⟩
      | published items =>
        simp [registryPart, registryStep, h1, h2, h3] at hx
        rcases hx with rfl | rfl | rfl
        · exact Or.inl ⟨rf, rfl⟩
        · exact Or.inr (Or.inl ⟨items, rfl⟩)
        · exact Or.inr (Or.inr ⟨rf, rfl⟩)

theorem afterConfig_events (env : RunEnv) (st : Store) (x : Event)
    (hx : x ∈ (afterConfig env st).1) :
    (∃ t a, x = .logDbg t a) ∨ (∃ r, x = .initLogSink r) ∨
    (∃ l, x = .setLogLevel l) ∨ (∃ p, x = .logRegistryStart p) ∨
    (∃ l, x = .registryPublished l) ∨ (∃ p, x = .logRegistrySuccess p) ∨
    x = .logStarted ∨ x = .mainInvoked := by
  cases h3 : registryPart env
      (storeString (mergeDecls st env.decls) "gsrunner.registry" "") with
  | mk evs q =>
    have hevs : ∀ y, y ∈ evs →
        (∃ p, y = Event.logRegistryStart p) ∨ (∃ l, y = .registryPublished l) ∨
        (∃ p, y = .logRegistrySuccess p) := by
      intro y hy
      exact registryPart_events env _ y (by rw [h3]; exact hy)
    cases q with
    | some e =>
      simp only [afterConfig, h3, List.mem_append] at hx
      rcases hx with ((h | h) | h) | h
      · simp only [List.mem_cons, List.not_mem_nil, or_false] at h
        rcases h with h | h | h <;> exact Or.inl ⟨_, _, h⟩
      · exact Or.inr (Or.inl ⟨_, mem_ite_nil_singleton h⟩)
      · exact Or.inr (Or.inr (Or.inl ⟨_, mem_ite_nil_singleton h⟩))
      · rcases hevs x h with h | h | h
        · exact Or.inr (Or.inr (Or.inr (Or.inl h)))
        · exact Or.inr (Or.inr (Or.inr (Or.inr (Or.inl h))))
        · exact Or.inr (Or.inr (Or.inr (Or.inr (Or.inr (Or.inl h)))))
    | none =>
      simp only [afterConfig, h3, List.mem_append] at hx
      rcases hx with (((h | h) | h) | h) | h
      · simp only [List.mem_cons, List.not_mem_nil, or_false] at h
        rcases h with h | h | h <;> exact Or.inl ⟨_, _, h⟩
      · exact Or.inr (Or.inl ⟨_, mem_ite_nil_singleton h⟩)
      · exact Or.inr (Or.inr (Or.inl ⟨_, mem_ite_nil_singleton h⟩))
      · rcases hevs x h with h | h | h
        · exact Or.inr (Or.inr (Or.inr (Or.inl h)))
        · exact Or.inr (Or.inr (Or.inr (Or.inr (Or.inl h))))
        · exact Or.inr (Or.inr (Or.inr (Or.inr (Or.inr (Or.inl h)))))
      · simp only [List.mem_cons, List.not_mem_nil, or_false] at h
        rcases h with h | h
        · exact Or.inr (Or.inr (Or.inr (Or.inr (Or.inr (Or.inr (Or.inl h))))))
        · exact Or.inr (Or.inr (Or.inr (Or.inr (Or.inr (Or.inr (Or.inr h))))))

theorem joinLogs_notin_runBody (env : RunEnv) (st : Store) :
    Event.joinLogs ∉ (runBody env st).1 := by
  intro hx
  cases h1 : configStep env (configPathOf env) st with
  | mk evs r =>
    cases r with
    | error e =>
      simp only [runBody, h1, List.mem_append, List.mem_cons,
        List.not_mem_nil, or_false] at hx
      rcases hx with h | hx
      · simp at h
      · rcases configStep_events env _ st _ (by rw [h1]; exact hx) with
          ⟨p, h⟩ | ⟨p, h⟩ | ⟨p, h⟩ <;> simp at h
    | ok st1 =>
      cases h2 : afterConfig env st1 with
      | mk evs2 rest =>
        cases rest with
        | mk st2 p =>
          simp only [runBody, h1, h2, List.mem_append, List.mem_cons,
            List.not_mem_nil, or_false] at hx
          rcases hx with (h | hx) | hx
          · simp at h
          · rcases configStep_events env _ st _ (by rw [h1]; exact hx) with
              ⟨q, h⟩ | ⟨q, h⟩ | ⟨q, h⟩ <;> simp at h
          · rcases afterConfig_events env st1 _ (by rw [h2]; exact hx) with
              ⟨t, a, h⟩ | ⟨r, h⟩ | ⟨l, h⟩ | ⟨q, h⟩ | ⟨l, h⟩ | ⟨q, h⟩ | h | h <;>
              simp at h

theorem afterConfig_fatal_noMain (env : RunEnv) (st : Store) (e : PanicErr)
    (h : (afterConfig env st).2.2 = some e) (hne : e ≠ PanicErr.mainFault) :
    Event.mainInvoked ∉ (afterConfig env st).1 := by
  cases h3 : registryPart env
      (storeString (mergeDecls st env.decls) "gsrunner.registry" "") with
  | mk evs q =>
    cases q with
    | some e1 =>
      intro hx
      simp only [afterConfig, h3, List.mem_append] at hx
      rcases hx with ((h' | h') | h') | h'
      · simp at h'
      · exact absurd (mem_ite_nil_singleton h') (by simp)
      · exact absurd (mem_ite_nil_singleton h') (by simp)
      · rcases registryPart_events env _ _ (by rw [h3]; exact h') with
          ⟨p, hh⟩ | ⟨l, hh⟩ | ⟨p, hh⟩ <;> simp at hh
    | none =>
      simp only [afterConfig, h3] at h
      cases hm : env.mainFaults with
      | false => rw [hm] at h; simp at h
      | true =>
        rw [hm] at h
        simp at h
        exact absurd h.symm hne

theorem mainInvoked_notin_runBody (env : RunEnv) (st : Store) (e : PanicErr)
    (hp : (runBody env st).2.2 = some e) (hne : e ≠ PanicErr.mainFault) :
    Event.mainInvoked ∉ (runBody env st).1 := by
  cases h1 : configStep env (configPathOf env) st with
  | mk evs r =>
    cases r with
    | error e1 =>
      intro hx
      simp only [runBody, h1, List.mem_append, List.mem_cons,
        List.not_mem_nil, or_false] at hx
      rcases hx with h | hx
      · simp at h
      · rcases configStep_events env _ st _ (by rw [h1]; exact hx) with
          ⟨p, hh⟩ | ⟨p, hh⟩ | ⟨p, hh⟩ <;> simp at hh
    | ok st1 =>
      cases h2 : afterConfig env st1 with
      | mk evs2 rest =>
        cases rest with
        | mk st2 p =>
          have hp2 : p = some e := by
            simp only [runBody, h1, h2] at hp
            exact hp
          intro hx
          simp only [runBody, h1, h2, List.mem_append, List.mem_cons,
            List.not_mem_nil, or_false] at hx
          rcases hx with (h | hx) | hx
          · simp at h
          · rcases configStep_events env _ st _ (by rw [h1]; exact hx) with
              ⟨q, hh⟩ | ⟨q, hh⟩ | ⟨q, hh⟩ <;> simp at hh
          · exact afterConfig_fatal_noMain env st1 e
              (by rw [h2]; exact hp2) hne (by rw [h2]; exact hx)

theorem jsonAttempt_runBody (env : RunEnv) (st : Store) (p : String)
    (h : Event.jsonLoadAttempt p ∈ (runBody env st).1) :
    configPathOf env ≠ "" ∧ goExt (configPathOf env) = ".json" := by
  cases h1 : configStep env (configPathOf env) st with
  | mk evs r =>
    have hin : Event.jsonLoadAttempt p ∈ evs := by
      cases r with
      | error e =>
        simp only [runBody, h1, List.mem_append, List.mem_cons,
          List.not_mem_nil, or_false] at h
        rcases h with h | h
        · simp at h
        · exact h
      | ok st1 =>
        cases h2 : afterConfig env st1 with
        | mk evs2 rest =>
          cases rest with
          | mk st2 q =>
            simp only [runBody, h1, h2, List.mem_append, List.mem_cons,
              List.not_mem_nil, or_false] at h
            rcases h with (h | h) | h
            · simp at h
            · exact h
            · rcases afterConfig_events env st1 _ (by rw [h2]; exact h) with
                ⟨t, a, hh⟩ | ⟨r1, hh⟩ | ⟨l, hh⟩ | ⟨q1, hh⟩ | ⟨l, hh⟩ |
                  ⟨q1, hh⟩ | hh | hh <;> simp at hh
    by_cases hc1 : configPathOf env = ""
    · rw [configStep, if_pos hc1] at h1
      cases h1
      simp at hin
    · by_cases hc2 : goExt (configPathOf env) = ".json"
      · exact ⟨hc1, hc2⟩
      · rw [configStep, if_neg hc1, if_neg hc2] at h1
        cases h1
        simp at hin

theorem mergeDecls_notin (st : Store) (ds : List Decl) (k : String)
    (h : k ∉ ds.map Decl.fullname) : mergeDecls st ds k = st k := by
  induction ds generalizing st with
  | nil => rfl
  | cons d rest ih =>
    have hk : k ≠ d.fullname := by
      intro hkd
      exact h (List.mem_map.mpr ⟨d, List.mem_cons_self d rest, hkd.symm⟩)
    have hrest : k ∉ rest.map Decl.fullname := by
      intro hkr
      apply h
      rw [List.map_cons]
      exact List.mem_cons_of_mem _ hkr
    rw [mergeDecls, ih _ hrest, updateStore, if_neg hk]

/-! ## The claims -/

/-- Claim C1 (code bug): the spec says a registry line `"a.b.c=42"`
parses to the entry `a.b.c -> 42` and that every grammatically valid
line is accepted after its trailing newline is stripped.  The code never
strips the newline (`ReadString` keeps it and the anchored regex cannot
match past it), so the newline-terminated line dies as a format error at
index 0; without the newline the line is silently dropped at end of
stream and an empty mapping is published.  Moreover, even where the
newline-free text does match the regex, the loop feeds the *name* group
`tokens[1]` to `ParseInt`, which fails on the dots, so the claimed entry
can never be produced. -/
theorem c1_registry_line_never_accepted :
    loadRegistry ("a.b.c=42\n".data) "services.cfg" =
      .fatal .invalidFormat "services.cfg" 0 ∧
    loadRegistry ("a.b.c=42".data) "services.cfg" = .published [] ∧
    findStringSubmatch ("a.b.c=42".data) =
      some ⟨"a.b.c=42".data, "a.b.c".data, ".c".data, "42".data⟩ ∧
    parseIntBase0Bits32 ("a.b.c".data) = none :=
  ⟨by decide, by decide, by decide, by decide⟩

/-- Claim C2: the loader publishes a mapping if and only if every
newline-terminated line of the input passed every check of the loop
body; if any processed line fails a check, the outcome is a fatal error
carrying the source path, and `gorpc.RegistryUpdate` is never invoked —
no partial mapping is ever published. -/
theorem c2_no_partial_publish (input : List Char) (path : String) :
    ((loadRegistry input path).isPublished = true ↔
      ∀ l ∈ terminatedLines input, lineOk l = true) ∧
    (∀ l, l ∈ terminatedLines input → lineOk l = false →
      ∃ k i, loadRegistry input path = .fatal k path i) := by
  constructor
  · exact processLines_published_iff path (terminatedLines input) 0 []
  · intro l hl hbad
    cases hout : loadRegistry input path with
    | published items =>
      have hpub : (loadRegistry input path).isPublished = true := by
        rw [hout]
        rfl
      have hall :=
        (processLines_published_iff path (terminatedLines input) 0 []).mp hpub
      rw [hall l hl] at hbad
      cases hbad
    | fatal k p i =>
      obtain ⟨hp, _⟩ :=
        processLines_fatal_eq path (terminatedLines input) 0 [] k p i hout
      exact ⟨k, i, by rw [hp]⟩

/-- Witness for C2 at concrete inputs: the empty input publishes, and an
input whose single line fails the checks dies fatally with the path in
the message. -/
theorem c2_no_partial_publish_witness :
    (loadRegistry [] "reg").isPublished = true ∧
    (∃ k i, loadRegistry ("bad\n".data) "reg" = .fatal k "reg" i) :=
  ⟨(c2_no_partial_publish [] "reg").1.mpr (by decide),
   (c2_no_partial_publish ("bad\n".data) "reg").2 ("bad\n".data)
     (by decide) (by decide)⟩

/-- Claim C3 (code bug): the spec says a grammatical line whose id
exceeds 65535, such as `"a.b=65536"`, fails with an "id out of range"
error.  In the code the newline-terminated line already fails the regex
(reported as "invalid format"), and without the newline it is silently
dropped; the range check compares `ParseInt(tokens[1])` — the *name*
group — so the "id out of range" branch is unreachable for this
input. -/
theorem c3_out_of_range_reported_as_invalid_format :
    loadRegistry ("a.b=65536\n".data) "services.cfg" =
      .fatal .invalidFormat "services.cfg" 0 ∧
    loadRegistry ("a.b=65536".data) "services.cfg" = .published [] :=
  ⟨by decide, by decide⟩

/-- Claim C4 counterexample: with a `config` flag naming a JSON file
whose load fails, the fault is caught by `Run`'s deferred handler and
absorbed — `Run` returns normally (`aborted = false`), merely logging
the fault — contradicting the claim that such errors abort the process
immediately rather than being caught. -/
theorem c4_counterexample :
    Event.logCaught (PanicErr.configLoad "app.json") ∈
      (runModel env4 emptyStore).trace ∧
    (runModel env4 emptyStore).aborted = false ∧
    (runModel env4 emptyStore).trace.count Event.mainInvoked = 0 := by
  refine ⟨by decide, rfl, by decide⟩

/-- Claim C4 as amended: a failed config load, a registry-open failure
or a registry-format error raised during `run` aborts the remaining
startup steps immediately — the entry point is never invoked — and the
fault is logged with its description; but the deferred handler recovers
it, so `run` itself returns normally after the stop/flush sequence
instead of aborting the process. -/
theorem c4_startup_fault_recovered (env : RunEnv) (st : Store) (e : PanicErr)
    (h : (runBody env st).2.2 = some e) (hne : e ≠ PanicErr.mainFault) :
    Event.mainInvoked ∉ (runBody env st).1 ∧
    (runModel env st).trace =
      (runBody env st).1 ++
        [Event.logCaught e, Event.logStopped, Event.joinLogs] ∧
    (runModel env st).aborted = false := by
  refine ⟨mainInvoked_notin_runBody env st e h hne, ?_, ?_⟩
  · cases hb : runBody env st with
    | mk evs rest =>
      cases rest with
      | mk st1 p =>
        have hp : p = some e := by
          rw [hb] at h
          exact h
        subst hp
        simp [runModel, hb]
  · cases hb : runBody env st with
    | mk evs rest =>
      cases rest with
      | mk st1 p => simp [runModel, hb]

/-- Witness for the amended C4 on the concrete failing-config run. -/
theorem c4_startup_fault_recovered_witness :
    (runModel env4 emptyStore).trace =
      (runBody env4 emptyStore).1 ++
        [Event.logCaught (PanicErr.configLoad "app.json"), Event.logStopped,
          Event.joinLogs] ∧
    (runModel env4 emptyStore).aborted = false :=
  ⟨(c4_startup_fault_recovered env4 emptyStore (PanicErr.configLoad "app.json")
      (by decide) (by decide)).2.1,
   (c4_startup_fault_recovered env4 emptyStore (PanicErr.configLoad "app.json")
      (by decide) (by decide)).2.2⟩

/-- Claim C5: declaring a flag whose short name is already taken, or
whose fully-qualified name is already taken, is a fatal error raised by
`checkName` at declaration time (before `Run` ever parses flags), whose
message identifies the offending name; a successful declaration
preserves the invariant that no two declared options share a short name
or a fully-qualified name. -/
theorem c5_unique_flag_names (m : List (String × String)) (n f : String)
    (hInv : NamesInv m) :
    (n ∈ m.map Prod.fst →
      checkName m n f = .error ("duplicate flag name :" ++ n)) ∧
    (n ∉ m.map Prod.fst → f ∈ m.map Prod.snd →
      checkName m n f = .error ("duplicate flag fullname :" ++ f)) ∧
    (∀ m', checkName m n f = .ok m' → NamesInv m') := by
  refine ⟨?_, ?_, ?_⟩
  · intro hn
    obtain ⟨p, hp, hpn⟩ := List.mem_map.mp hn
    have hfind : (m.find? (fun q => q.1 = n)).isSome = true := by
      rw [List.find?_isSome]
      exact ⟨p, hp, by simp [hpn]⟩
    rw [checkName, if_pos (by simp [lookupName, Option.isSome_map, hfind])]
  · intro hn hf
    have hnone : m.find? (fun q => q.1 = n) = none := by
      rw [List.find?_eq_none]
      intro p hp
      simp only [decide_eq_true_eq]
      intro hpn
      exact hn (List.mem_map.mpr ⟨p, hp, hpn⟩)
    have hany : m.any (fun p => p.2 = f) = true := by
      obtain ⟨p, hp, hpf⟩ := List.mem_map.mp hf
      exact List.any_eq_true.mpr ⟨p, hp, by simp [hpf]⟩
    rw [checkName, if_neg (by simp [lookupName, hnone]), if_pos hany]
  · intro m' hok
    obtain ⟨rfl, hn, hf⟩ := checkName_ok_iff m n f m' hok
    constructor
    · rw [List.map_append, List.nodup_append]
      refine ⟨hInv.1, by simp, ?_⟩
      intro a ha hb
      simp only [List.map_cons, List.map_nil, List.mem_singleton] at hb
      subst hb
      exact hn ha
    · rw [List.map_append, List.nodup_append]
      refine ⟨hInv.2, by simp, ?_⟩
      intro a ha hb
      simp only [List.map_cons, List.map_nil, List.mem_singleton] at hb
      subst hb
      exact hf ha

/-- Witness for C5: re-declaring the short name `log` on a registrar
that already holds it is rejected with a message naming it. -/
theorem c5_unique_flag_names_witness :
    checkName [("log", "gsrunner.log")] "log" "other.full" =
      .error ("duplicate flag name :" ++ "log") :=
  (c5_unique_flag_names [("log", "gsrunner.log")] "log" "other.full"
    ⟨by decide, by decide⟩).1 (by decide)

/-- Claim C6: whenever the loader fails, the fatal error carries the
source label and a 0-based index equal to the number of lines
successfully consumed before the failing one (the counter increments
only after a fully successful line), whichever of the three checks
fired. -/
theorem c6_error_reports_successful_line_count (input : List Char)
    (path : String) (k : FailKind) (p : String) (i : Nat)
    (h : loadRegistry input path = .fatal k p i) :
    p = path ∧ i = ((terminatedLines input).takeWhile lineOk).length := by
  have hh := processLines_fatal_eq path (terminatedLines input) 0 [] k p i h
  simpa using hh

/-- Witness for C6 at a concrete failing input. -/
theorem c6_error_reports_successful_line_count_witness :
    "lbl" = "lbl" ∧
    0 = ((terminatedLines ("z\n".data)).takeWhile lineOk).length :=
  c6_error_reports_successful_line_count ("z\n".data) "lbl"
    .invalidFormat "lbl" 0 (by decide)

/-- Claim C7: after the merge loops, the configuration store holds, for
every declared flag, that flag's parsed command-line value under its
fully-qualified name, overwriting whatever a loaded JSON config file put
there (the initial store is arbitrary); fully-qualified names are unique
by the registrar invariant. -/
theorem c7_flags_override_config (st : Store) (ds : List Decl)
    (hnodup : (ds.map Decl.fullname).Nodup) (d : Decl) (hd : d ∈ ds) :
    mergeDecls st ds d.fullname = some d.val := by
  induction ds generalizing st with
  | nil => cases hd
  | cons e rest ih =>
    rw [List.map_cons, List.nodup_cons] at hnodup
    rcases List.mem_cons.mp hd with rfl | hd1
    · rw [mergeDecls, mergeDecls_notin _ _ _ hnodup.1, updateStore, if_pos rfl]
    · exact ih _ hnodup.2 hd1

/-- Witness for C7: the flag value overrides a store that the config
file had already populated at the same key. -/
theorem c7_flags_override_config_witness :
    mergeDecls (updateStore emptyStore "f.a" (CVal.vStr "from-json"))
      [⟨"a", "f.a", CVal.vStr "from-flag"⟩, ⟨"b", "f.b", CVal.vInt 3⟩]
      "f.a" = some (CVal.vStr "from-flag") :=
  c7_flags_override_config
    (updateStore emptyStore "f.a" (CVal.vStr "from-json"))
    [⟨"a", "f.a", CVal.vStr "from-flag"⟩, ⟨"b", "f.b", CVal.vInt 3⟩]
    (by decide) ⟨"a", "f.a", CVal.vStr "from-flag"⟩ (by decide)

/-- Claim C8: on every exit path of `Run` — entry point returning
normally, entry point panicking, or an internal step panicking — no
fault escapes the call, any pending fault is logged, the final stop
message is logged, and the log join step executes exactly once. -/
theorem c8_shutdown_on_every_exit_path (env : RunEnv) (st : Store) :
    (runModel env st).aborted = false ∧
    (runModel env st).trace.count Event.joinLogs = 1 ∧
    Event.logStopped ∈ (runModel env st).trace ∧
    (∀ e, (runBody env st).2.2 = some e →
      Event.logCaught e ∈ (runModel env st).trace) := by
  cases hb : runBody env st with
  | mk evs rest =>
    cases rest with
    | mk st1 p =>
      have hnj : Event.joinLogs ∉ evs := by
        have hj := joinLogs_notin_runBody env st
        rw [hb] at hj
        exact hj
      refine ⟨by simp [runModel, hb], ?_, ?_, ?_⟩
      · cases p with
        | none =>
          simp [runModel, hb, List.count_append, List.count_eq_zero.mpr hnj]
        | some e =>
          simp [runModel, hb, List.count_append, List.count_eq_zero.mpr hnj,
            List.count_cons]
      · cases p <;> simp [runModel, hb]
      · intro e he
        have hp : p = some e := he
        subst hp
        simp [runModel, hb]

/-- Witness for C8: a run whose entry point panics still logs the fault
and joins the logs exactly once. -/
theorem c8_shutdown_on_every_exit_path_witness :
    (runModel env8 emptyStore).trace.count Event.joinLogs = 1 ∧
    Event.logCaught PanicErr.mainFault ∈ (runModel env8 emptyStore).trace :=
  ⟨(c8_shutdown_on_every_exit_path env8 emptyStore).2.1,
   (c8_shutdown_on_every_exit_path env8 emptyStore).2.2.2
     PanicErr.mainFault (by decide)⟩

/-- Claim C9: when the `config` flag is non-empty and its extension is
not `.json`, the config step emits only the warning, leaves the store
untouched and raises no fault; the rest of the startup then runs on the
unchanged store, and the JSON loader is never invoked during the run. -/
theorem c9_non_json_config_skipped (env : RunEnv) (st : Store)
    (h1 : configPathOf env ≠ "") (h2 : goExt (configPathOf env) ≠ ".json") :
    configStep env (configPathOf env) st =
      ([.warnConfig (configPathOf env)], .ok st) ∧
    runBody env st =
      (Event.logDbg "config file path" (configPathOf env) ::
        Event.warnConfig (configPathOf env) :: (afterConfig env st).1,
       (afterConfig env st).2.1, (afterConfig env st).2.2) ∧
    (∀ q, Event.jsonLoadAttempt q ∉ (runBody env st).1) := by
  have hcs : configStep env (configPathOf env) st =
      ([.warnConfig (configPathOf env)], .ok st) := by
    rw [configStep, if_neg h1, if_neg h2]
  refine ⟨hcs, ?_, ?_⟩
  · cases h3 : afterConfig env st with
    | mk evs2 rest =>
      cases rest with
      | mk st2 p => simp [runBody, hcs, h3]
  · intro q hq
    exact h2 (jsonAttempt_runBody env st q hq).2

/-- Witness for C9 on a run configured with a `.yaml` file. -/
theorem c9_non_json_config_skipped_witness :
    configStep env9 (configPathOf env9) emptyStore =
      ([.warnConfig "conf.yaml"], .ok emptyStore) :=
  (c9_non_json_config_skipped env9 emptyStore (by decide) (by decide)).1

/-- Claim C10: a final line not terminated by a newline is silently
discarded at end of stream — appending newline-free text to any input
does not change the loader's outcome at all, and an input consisting
only of such text publishes the empty mapping without any error. -/
theorem c10_unterminated_final_line_dropped (input t : List Char)
    (path : String) (h : ∀ c ∈ t, c ≠ '\n') :
    loadRegistry (input ++ t) path = loadRegistry input path ∧
    loadRegistry t path = .published [] := by
  constructor
  · rw [loadRegistry, loadRegistry, terminatedLines, terminatedLines,
      linesAux_append input t [] h]
  · rw [loadRegistry, terminatedLines, linesAux_no_newline t [] h]
    rfl

/-- Witness for C10: a lone unterminated (even well-formed) line is
dropped and the empty mapping is published. -/
theorem c10_unterminated_final_line_dropped_witness :
    loadRegistry ([] ++ "x.y=7".data) "reg" = loadRegistry [] "reg" ∧
    loadRegistry ("x.y=7".data) "reg" = .published [] :=
  c10_unterminated_final_line_dropped [] ("x.y=7".data) "reg" (by decide)

end GsRunner
